import Mathlib

/-!
Verification of the msync music-library synchronizer against its specification.

The Go sources are shallowly embedded: the in-memory tree model
(`MusicTreeNode`, music_dir_tree.go / util_music_darwin.go), the name
normalization helpers (util_music.go), the pruning pass
(`RemoveChildrenMatching`, music_dir_tree_remover.go), the sync walk and the
transcode phase of `msyncMain` (main program), and the worker-pool claim/error
protocol of the transcode scheduler.  External effects (filesystem stat, copy,
symlink, mkdir, the trash/deletion service, and the ffmpeg subprocess) are
modelled as oracle functions passed in through an environment record; Go maps
are modelled as association lists iterated in list order (Go map iteration
order is unspecified, so every order is represented by a choice of list).
Machine integers (int, int64) are modelled as Int and file modes as Nat.
-/

set_option linter.unusedVariables false

/-- The tree node type, translated field-for-field from `MusicTreeNode` in the
source (TreePath, FilesystemPath, IsDirectory, IsFile, IsMusicFile, BaseName,
BaseNameNormalized, FileSize, FileBitrate, Mode, Children).  `children` is
`none` for files (Go nil map) and `some` of an association list for
directories, mirroring the nil/non-nil distinction the code relies on. -/
inductive MusicTreeNode : Type where
  | mk (treePath : List String) (filesystemPath : String)
       (isDirectory : Bool) (isFile : Bool) (isMusicFile : Bool)
       (baseName : String) (baseNameNormalized : String)
       (fileSize : Int) (fileBitrate : Int) (mode : Nat)
       (children : Option (List (String × MusicTreeNode))) : MusicTreeNode

def MusicTreeNode.treePath : MusicTreeNode → List String
  | .mk tp _ _ _ _ _ _ _ _ _ _ => tp

def MusicTreeNode.filesystemPath : MusicTreeNode → String
  | .mk _ fp _ _ _ _ _ _ _ _ _ => fp

def MusicTreeNode.isDirectory : MusicTreeNode → Bool
  | .mk _ _ d _ _ _ _ _ _ _ _ => d

def MusicTreeNode.isFile : MusicTreeNode → Bool
  | .mk _ _ _ f _ _ _ _ _ _ _ => f

def MusicTreeNode.isMusicFile : MusicTreeNode → Bool
  | .mk _ _ _ _ m _ _ _ _ _ _ => m

def MusicTreeNode.baseName : MusicTreeNode → String
  | .mk _ _ _ _ _ bn _ _ _ _ _ => bn

def MusicTreeNode.baseNameNormalized : MusicTreeNode → String
  | .mk _ _ _ _ _ _ bnn _ _ _ _ => bnn

def MusicTreeNode.fileSize : MusicTreeNode → Int
  | .mk _ _ _ _ _ _ _ sz _ _ _ => sz

def MusicTreeNode.fileBitrate : MusicTreeNode → Int
  | .mk _ _ _ _ _ _ _ _ br _ _ => br

def MusicTreeNode.mode : MusicTreeNode → Nat
  | .mk _ _ _ _ _ _ _ _ _ md _ => md

def MusicTreeNode.children : MusicTreeNode → Option (List (String × MusicTreeNode))
  | .mk _ _ _ _ _ _ _ _ _ _ cs => cs

/-- Replace only the `children` field of a node, keeping every other field. -/
def setChildren : MusicTreeNode → Option (List (String × MusicTreeNode)) → MusicTreeNode
  | .mk tp fp d f m bn bnn sz br md _, cs => .mk tp fp d f m bn bnn sz br md cs

/-- Go map lookup `n.Children[key]` on the association-list model: first entry
with the given key (keys are unique in a Go map). -/
def lookupChild : List (String × MusicTreeNode) → String → Option MusicTreeNode
  | [], _ => none
  | (k0, v) :: rest, k => if k0 = k then some v else lookupChild rest k

/-- Go map assignment `cs[key] = v`: replace the entry with that key, or add
the entry when the key is absent. -/
def upsertChild : List (String × MusicTreeNode) → String → MusicTreeNode →
    List (String × MusicTreeNode)
  | [], k, v => [(k, v)]
  | (k0, v0) :: rest, k, v =>
    if k0 = k then (k, v) :: rest else (k0, v0) :: upsertChild rest k v

/-- `NodeAtTreePath` from the source: descend from this node along the given
normalized path; `nil` children (a file) stops the descent. -/
def MusicTreeNode.nodeAtTreePath : MusicTreeNode → List String → Option MusicTreeNode
  | n, [] => some n
  | n, k :: rest =>
    match n.children with
    | none => none
    | some cs =>
      match lookupChild cs k with
      | some c => c.nodeAtTreePath rest
      | none => none

/-- `HasNodeAtTreePath` from the source. -/
def MusicTreeNode.hasNodeAtTreePath (n : MusicTreeNode) (path : List String) : Bool :=
  (n.nodeAtTreePath path).isSome

/-- Go `len(n.Children)`: the length of a nil map is 0. -/
def goLenChildren (n : MusicTreeNode) : Nat :=
  match n.children with
  | none => 0
  | some cs => cs.length

/- ## String helpers used by the source (strings / path/filepath packages) -/
/-- ASCII lower-casing of one character. -/
def goCharToLower (c : Char) : Char :=
  if 'A' ≤ c ∧ c ≤ 'Z' then Char.ofNat (c.toNat + 32) else c

/-- `strings.ToLower` (ASCII case mapping; the Go version additionally maps
non-ASCII letters, which no path in this development exercises). -/
def goToLower (s : String) : String := ⟨s.data.map goCharToLower⟩

/-- `name[0:k]` on a Go string (byte slicing; all names in this development
are ASCII, so bytes and characters coincide). -/
def goTake (s : String) (k : Nat) : String := ⟨s.data.take k⟩

/-- `name[k:]` on a Go string. -/
def goDrop (s : String) (k : Nat) : String := ⟨s.data.drop k⟩

/-- `strings.HasPrefix`. -/
def goStartsWith (s pre : String) : Bool := pre.data.isPrefixOf s.data

/-- Scan of `filepath.Ext`: walking backwards from the end of the path, stop
at a path separator; the extension is the suffix beginning at the last dot. -/
def filepathExtAux : List Char → List Char → String
  | [], _ => ""
  | c :: rest, acc =>
    if c = '/' then ""
    else if c = '.' then ⟨c :: acc⟩
    else filepathExtAux rest (c :: acc)

/-- `filepath.Ext`: the suffix beginning at the final dot in the final
slash-separated element; empty when there is no dot. -/
def filepathExt (path : String) : String := filepathExtAux path.data.reverse []

/-- `isMusicFile` from util_music.go: lowercased extension is one of
mp3 / m4a / flac / alac. -/
def isMusicFile (path : String) : Bool :=
  let ext := goToLower (filepathExt path)
  ext = ".mp3" || ext = ".m4a" || ext = ".flac" || ext = ".alac"

/-- `normalizeFileNameForComparing` from util_music.go: lowercase the name;
when the lowered name has a recognized music extension, cut the extension
(`name[0 : len(name)-len(ext)]`). -/
def normalizeFileNameForComparing (name : String) : String :=
  let name1 := goToLower name
  if isMusicFile name1 then goTake name1 (name1.length - (filepathExt name1).length)
  else name1

/-- `dzutil.RemoveExt`: drop the `filepath.Ext` suffix, if any. -/
def removeExt (name : String) : String :=
  goTake name (name.length - (filepathExt name).length)

/-- `strings.TrimPrefix`-equivalent: drop the given leading string when
present, otherwise return the input unchanged. -/
def goTrimLeading (s pre : String) : String :=
  if goStartsWith s pre then goDrop s pre.length else s

def listReplaceFirst (pat rep : List Char) : List Char → List Char
  | [] => []
  | c :: cs =>
    if pat.isPrefixOf (c :: cs) then rep ++ (c :: cs).drop pat.length
    else c :: listReplaceFirst pat rep cs

/-- `strings.Replace(s, old, new, 1)`: replace the first occurrence of `old`;
an empty `old` matches at the beginning of the string. -/
def goReplaceFirst (s old new : String) : String :=
  if old = "" then new ++ s
  else ⟨listReplaceFirst old.data new.data s.data⟩

def goSplitSlashAux : List Char → List Char → List String
  | [], acc => [⟨acc.reverse⟩]
  | c :: cs, acc =>
    if c = '/' then (⟨acc.reverse⟩ : String) :: goSplitSlashAux cs []
    else goSplitSlashAux cs (c :: acc)

/-- `strings.Split(s, "/")` (the path separator); `Split("", "/") = [""]`. -/
def goSplitSlash (s : String) : List String := goSplitSlashAux s.data []

/-- `filepath.Dir` for slash paths without redundant separators: everything up
to the final separator, with trailing separators cleaned; "." when there is no
separator and "/" for the root. -/
def filepathDir (path : String) : String :=
  let pre := (path.data.reverse.dropWhile (fun c => !(c = '/'))).reverse
  let pre2 := (pre.reverse.dropWhile (fun c => c = '/')).reverse
  if pre2 = [] then (if pre = [] then "." else "/") else ⟨pre2⟩

/-- `filepath.Base`: the last element of the path after dropping trailing
separators; "." for the empty path, "/" when the path is all separators. -/
def filepathBase (path : String) : String :=
  if path = "" then "."
  else
    let cs := path.data.reverse.dropWhile (fun c => c = '/')
    let base := (cs.takeWhile (fun c => !(c = '/'))).reverse
    if base = [] then "/" else ⟨base⟩

/-- `filepath.Join` for two elements, restricted to already-clean inputs:
empty elements are dropped, the rest are joined with a separator. -/
def pathJoin (a b : String) : String :=
  if a = "" then b else if b = "" then a else a ++ "/" ++ b

/- ## RemoveChildrenMatching (music_dir_tree_remover.go) -/
/-- Result of a `RemoveChildrenMatching` call: the node with its (recursively)
updated children, the removal count, the filesystem paths handed to the
trash/deletion service, and the error, if any. -/
structure RemoveResult where
  tree : MusicTreeNode
  count : Nat
  trashed : List String
  err : Option String

structure RemoveLoopResult where
  children : List (String × MusicTreeNode)
  count : Nat
  trashed : List String
  err : Option String

mutual

/-- `RemoveChildrenMatching` from music_dir_tree_remover.go (identical in
util_music_darwin.go): when the node has a children map, run the removal loop
over it; the receiver node itself is rebuilt with the surviving children and
is never removed or trashed.  `trash` is the deletion-service oracle
(`wastebasket.Trash`): `true` means success. -/
def removeChildrenMatching (dryRun : Bool) (trash : String → Bool)
    (p : MusicTreeNode → Bool) (n : MusicTreeNode) : RemoveResult :=
  match n with
  | .mk tp fp d f m bn bnn sz br md children =>
    match children with
    | none => ⟨.mk tp fp d f m bn bnn sz br md none, 0, [], none⟩
    | some cs =>
      let r := removeChildrenLoop dryRun trash p cs
      ⟨.mk tp fp d f m bn bnn sz br md (some r.children), r.count, r.trashed, r.err⟩
termination_by structural n

/-- The `for childKey, childNode := range n.Children` loop: recurse into the
child first; a recursion error returns immediately (the mutated child stays);
then evaluate the predicate on the already-mutated child; on a match the child
is unlinked from the map before the deletion service runs, and a deletion
failure returns immediately without counting the failed child. -/
def removeChildrenLoop (dryRun : Bool) (trash : String → Bool)
    (p : MusicTreeNode → Bool) : List (String × MusicTreeNode) → RemoveLoopResult
  | [] => ⟨[], 0, [], none⟩
  | (k, c) :: rest =>
    let rc := removeChildrenMatching dryRun trash p c
    match rc.err with
    | some e => ⟨(k, rc.tree) :: rest, rc.count, rc.trashed, some e⟩
    | none =>
      if p rc.tree then
        if dryRun then
          let rl := removeChildrenLoop dryRun trash p rest
          ⟨rl.children, rc.count + 1 + rl.count, rc.trashed ++ rl.trashed, rl.err⟩
        else
          if trash rc.tree.filesystemPath then
            let rl := removeChildrenLoop dryRun trash p rest
            ⟨rl.children, rc.count + 1 + rl.count,
              rc.trashed ++ [rc.tree.filesystemPath] ++ rl.trashed, rl.err⟩
          else
            ⟨rest, rc.count, rc.trashed, some ("failed to trash " ++ rc.tree.filesystemPath)⟩
      else
        let rl := removeChildrenLoop dryRun trash p rest
        ⟨(k, rc.tree) :: rl.children, rc.count + rl.count, rc.trashed ++ rl.trashed, rl.err⟩
termination_by structural cs => cs

end

/- ## Walk (util_music_darwin.go `Walk`): children first, then the callback -/
mutual

/-- `Walk`: visit every child subtree (children before the node itself), then
call the callback on the node; a callback error aborts the walk.  The Go
callback threads its effects through captured variables; here the threaded
state is made explicit as a value of type `σ`. -/
def walkTree {σ : Type} (visit : MusicTreeNode → σ → Except String σ) :
    MusicTreeNode → σ → Except String σ
  | .mk tp fp d f m bn bnn sz br md none, st =>
    visit (.mk tp fp d f m bn bnn sz br md none) st
  | .mk tp fp d f m bn bnn sz br md (some cs), st =>
    match walkList visit cs st with
    | .error e => .error e
    | .ok st1 => visit (.mk tp fp d f m bn bnn sz br md (some cs)) st1
termination_by structural n => n

def walkList {σ : Type} (visit : MusicTreeNode → σ → Except String σ) :
    List (String × MusicTreeNode) → σ → Except String σ
  | [], st => .ok st
  | (_, c) :: rest, st =>
    match walkTree visit c st with
    | .error e => .error e
    | .ok st1 => walkList visit rest st1
termination_by structural cs => cs

end

/- ## Configuration and bitrate constants (msyncMain) -/
/-- Environment for a run: flag values plus oracle functions standing for the
external world (filesystem and subprocesses).  `exec` models
`dzutil.Exec("ffmpeg", args)` returning (combined output, success);
`stat` models `os.Stat` returning (size, mode) on success; `trash` models
`wastebasket.Trash`; `dryRunTranscodeSizeEstimate` abstracts the float
computation `int64(math.Round(float64(srcSize)/float64(srcBitrate)*float64(target)))`
(floating point is not modelled). -/
structure RunEnv where
  dryRun : Bool
  makeSymlinks : Bool
  removeOtherFilesFromDest : Bool
  maxBitrateKbps : Int
  fileCreateMode : Nat
  sourceRootPath : String
  destRootPath : String
  mkdirOk : String → Bool
  copyOk : String → String → Bool
  symlinkOk : String → String → Bool
  stat : String → Option (Int × Nat)
  exec : List String → String × Bool
  trash : String → Bool
  dryRunTranscodeSizeEstimate : Int → Int → Int → Int

/-- `targetTranscodeBitrate := *maxBitrateKbpsFlag*1000 - 1000` — the encode
target is 1 Kbps below the configured ceiling. -/
def targetTranscodeBitrate (maxBitrateKbps : Int) : Int :=
  maxBitrateKbps * 1000 - 1000

/-- `maxBitrateForDestFiles := targetTranscodeBitrate + 3000` — destination
files may exceed the encode target by 3 Kbps before being pruned. -/
def maxBitrateForDestFiles (maxBitrateKbps : Int) : Int :=
  targetTranscodeBitrate maxBitrateKbps + 3000

/-- `const transcodeFileExt = ".m4a"`. -/
def transcodeFileExt : String := ".m4a"

/-- `strconv.Itoa(*maxBitrateKbpsFlag) + "k"`. -/
def ffmpegBitrateStr (maxBitrateKbps : Int) : String := toString maxBitrateKbps ++ "k"

/-- Predicate of prune pass 1: `!sourceTree.HasNodeAtTreePath(n.TreePath)`. -/
def stalePred (sourceTree : MusicTreeNode) (n : MusicTreeNode) : Bool :=
  !(sourceTree.hasNodeAtTreePath n.treePath)

/-- Predicate of the optional prune pass 2: `!(n.IsDirectory || n.IsMusicFile)`. -/
def nonMusicPred (n : MusicTreeNode) : Bool :=
  !(n.isDirectory || n.isMusicFile)

/-- Predicate of prune pass 3:
`n.IsMusicFile && n.FileBitrate > maxBitrateForDestFiles`. -/
def bitratePrunePred (maxBitrateKbps : Int) (n : MusicTreeNode) : Bool :=
  n.isMusicFile && decide (n.fileBitrate > maxBitrateForDestFiles maxBitrateKbps)

/-- Predicate of the final prune pass:
`n.IsDirectory && len(n.Children) == 0` (the length of a nil map is 0). -/
def emptyDirPred (n : MusicTreeNode) : Bool :=
  n.isDirectory && decide (goLenChildren n = 0)

/-- Transcode decision in the sync walk:
`n.IsFile && n.IsMusicFile && n.FileBitrate > maxBitrateForDestFiles`. -/
def needsTranscodePred (maxBitrateKbps : Int) (n : MusicTreeNode) : Bool :=
  n.isFile && n.isMusicFile && decide (n.fileBitrate > maxBitrateForDestFiles maxBitrateKbps)

/- ## The sync walk body (msyncMain) -/
/-- External filesystem operations actually performed (not performed in
dry-run mode); used to state that a run performs zero copies/symlinks. -/
inductive SyncAction : Type where
  | mkdirAll (path : String)
  | copy (src dst : String)
  | symlink (target link : String)

/-- `transcodeOp`: the source node paired with the placeholder destination
node inserted in the destination tree. -/
structure TranscodeOp where
  source : MusicTreeNode
  dest : MusicTreeNode

/-- State threaded through the sync walk: the destination tree (mutated in
place in Go), the `didMkdir` memo set, the `filesSyncedCount` counter, the
transcode queue, and the log of performed filesystem actions. -/
structure SyncState where
  destTree : MusicTreeNode
  didMkdir : List String
  filesSynced : Nat
  transcodeQueue : List TranscodeOp
  actions : List SyncAction

/-- The directory-insertion loop of the sync walk (`for _, part := range
destDirParts`), combined with the subsequent child insertion at the reached
node.  For each part: panic when the current node is a file or has a nil
children map; descend into the existing child at the normalized part, or
create a new directory node (tree path extended by the normalized part,
filesystem path joined with the raw part, mode = the destination root mode)
and descend into it.  After the last part, when `finalChild` is given, insert
it into the reached node (a nil map there is the Go runtime panic on
assignment to a nil map). -/
def insertDirsAndChild (rootMode : Nat) (n : MusicTreeNode) (parts : List String)
    (finalChild : Option (String × MusicTreeNode)) : Except String MusicTreeNode :=
  match parts with
  | [] =>
    match finalChild with
    | none => .ok n
    | some kv =>
      match n.children with
      | none => .error "panic: assignment to entry in nil map"
      | some cs => .ok (setChildren n (some (upsertChild cs kv.1 kv.2)))
  | part :: rest =>
    if n.isFile || n.children.isNone then .error "panic: file node cannot have children"
    else
      match n.children with
      | none => .error "panic: file node cannot have children"
      | some cs =>
        let normalizedPart := normalizeFileNameForComparing part
        match lookupChild cs normalizedPart with
        | some existing =>
          match insertDirsAndChild rootMode existing rest finalChild with
          | .error e => .error e
          | .ok existing2 =>
            .ok (setChildren n (some (upsertChild cs normalizedPart existing2)))
        | none =>
          let newDir : MusicTreeNode :=
            .mk (n.treePath ++ [normalizedPart]) (pathJoin n.filesystemPath part)
              true false false part normalizedPart 0 0 rootMode (some [])
          match insertDirsAndChild rootMode newDir rest finalChild with
          | .error e => .error e
          | .ok newDir2 =>
            .ok (setChildren n (some (upsertChild cs normalizedPart newDir2)))
termination_by structural parts

/-- Size and mode recorded for a freshly copied or symlinked destination file:
outside dry-run mode the result of `os.Stat(destPath)`; in dry-run mode the
source size and the configured file-creation mode
(`newFileSize = n.FileSize; newFileMode = fileCreateMode`). -/
def syncNewFileSizeMode (env : RunEnv) (n : MusicTreeNode) (destPath : String) :
    Except String (Int × Nat) :=
  if !env.dryRun then
    match env.stat destPath with
    | some szmd => .ok szmd
    | none => .error ("stat failed: " ++ destPath)
  else
    .ok (n.fileSize, env.fileCreateMode)

/-- The destination file node inserted by the copy/symlink branch of the sync
walk: a music-file node at the normalized destination path carrying the
computed size/mode and the source bitrate. -/
def mkSyncedDestFileNode (destDirPartsNormalized : List String)
    (destPath destFileName destFileNameNormalized : String)
    (newFileSize : Int) (fileBitrate : Int) (newFileMode : Nat) : MusicTreeNode :=
  .mk (destDirPartsNormalized ++ [destFileNameNormalized]) destPath
    false true true destFileName destFileNameNormalized
    newFileSize fileBitrate newFileMode none

/-- The placeholder destination node inserted by the transcode branch of the
sync walk: no size and no mode yet (Go zero values), bitrate already set to
the transcode target. -/
def mkTranscodeDestNode (destDirPartsNormalized : List String)
    (destPath destFileName destFileNameNormalized : String)
    (targetBitrate : Int) : MusicTreeNode :=
  .mk (destDirPartsNormalized ++ [destFileNameNormalized]) destPath
    false true true destFileName destFileNameNormalized
    0 targetBitrate 0 none

/-- The body of the sync-walk callback in `msyncMain`: skip non-music files;
skip nodes whose identity path already exists in the destination tree;
otherwise compute the destination path (substituting the destination root,
and switching the extension to `.m4a` when the bitrate demands a transcode),
create the destination directory (memoized by `didMkdir`), insert directory
nodes into the destination tree, and then either enqueue a transcode
operation with a placeholder node, or perform the copy/symlink and insert a
node carrying the resulting size/mode. -/
def syncVisitNode (env : RunEnv) (n : MusicTreeNode) (st : SyncState) :
    Except String SyncState :=
  if n.isFile && !n.isMusicFile then .ok st
  else if st.destTree.hasNodeAtTreePath n.treePath then .ok st
  else do
    let destPath0 := goReplaceFirst n.filesystemPath env.sourceRootPath env.destRootPath
    let needsTranscode := needsTranscodePred env.maxBitrateKbps n
    let destPath := if needsTranscode then removeExt destPath0 ++ transcodeFileExt else destPath0
    let destDirPath := if n.isFile then filepathDir destPath else destPath
    let st ←
      if st.didMkdir.contains destDirPath then .ok st
      else
        if !env.dryRun then
          if env.mkdirOk destDirPath then
            .ok { st with didMkdir := destDirPath :: st.didMkdir,
                          actions := st.actions ++ [SyncAction.mkdirAll destDirPath] }
          else .error ("mkdir failed: " ++ destDirPath)
        else .ok { st with didMkdir := destDirPath :: st.didMkdir }
    let relativeDirPathUnderDestRoot :=
      goTrimLeading (goTrimLeading destDirPath env.destRootPath) "/"
    let destDirParts := goSplitSlash relativeDirPathUnderDestRoot
    let t1 ← insertDirsAndChild st.destTree.mode st.destTree destDirParts none
    let st := { st with destTree := t1 }
    if n.isDirectory then .ok st
    else do
      let destDirPartsNormalized := destDirParts.map normalizeFileNameForComparing
      let destFileName := filepathBase destPath
      let destFileNameNormalized := normalizeFileNameForComparing destFileName
      if needsTranscode then
        let destNode := mkTranscodeDestNode destDirPartsNormalized destPath destFileName
          destFileNameNormalized (targetTranscodeBitrate env.maxBitrateKbps)
        let t2 ← insertDirsAndChild st.destTree.mode st.destTree destDirParts
          (some (destFileNameNormalized, destNode))
        .ok { st with destTree := t2,
                      transcodeQueue := st.transcodeQueue ++ [⟨n, destNode⟩],
                      filesSynced := st.filesSynced + 1 }
      else do
        let st ←
          if env.makeSymlinks then
            if !env.dryRun then
              if env.symlinkOk n.filesystemPath destPath then
                .ok { st with actions := st.actions ++ [SyncAction.symlink n.filesystemPath destPath] }
              else .error ("failed to symlink " ++ destPath ++ " to " ++ n.filesystemPath)
            else .ok st
          else
            if !env.dryRun then
              if env.copyOk n.filesystemPath destPath then
                .ok { st with actions := st.actions ++ [SyncAction.copy n.filesystemPath destPath] }
              else .error ("failed to copy " ++ n.filesystemPath ++ " to " ++ destPath)
            else .ok st
        let szmd ← syncNewFileSizeMode env n destPath
        let destNode := mkSyncedDestFileNode destDirPartsNormalized destPath destFileName
          destFileNameNormalized szmd.1 n.fileBitrate szmd.2
        let t2 ← insertDirsAndChild st.destTree.mode st.destTree destDirParts
          (some (destFileNameNormalized, destNode))
        .ok { st with destTree := t2, filesSynced := st.filesSynced + 1 }

/- ## The transcode phase (msyncMain worker body) -/
/-- The first ffmpeg invocation: keep (copy) the video stream, encode audio
as aac at the requested bitrate. -/
def ffmpegArgsKeepVideo (src dst brStr : String) : List String :=
  ["-loglevel", "warning", "-hide_banner", "-i", src,
   "-c:v", "copy", "-c:a", "aac", "-b:a", brStr, dst]

/-- The retry invocation: `-vn` discards video (non-audio) content entirely. -/
def ffmpegArgsDiscardVideo (src dst brStr : String) : List String :=
  ["-loglevel", "warning", "-hide_banner", "-i", src,
   "-vn", "-c:a", "aac", "-b:a", brStr, dst]

/-- Outcome of processing one claimed transcode operation: the (possibly
updated) destination node, the paths passed to `os.Remove`, the ffmpeg
argument lists executed, and the recorded error, if any. -/
structure TranscodeOutcome where
  dest : MusicTreeNode
  removed : List String
  invocations : List (List String)
  err : Option String

/-- Write a stat result back into a node:
`op.dest.Mode = destInfo.Mode(); op.dest.FileSize = destInfo.Size()`. -/
def MusicTreeNode.withSizeMode : MusicTreeNode → Int → Nat → MusicTreeNode
  | .mk tp fp d f m bn bnn _ br _ cs, sz, md => .mk tp fp d f m bn bnn sz br md cs

/-- The per-operation body of the transcode worker (msyncMain): outside
dry-run mode, run ffmpeg keeping video; on failure remove the partial output
and retry once discarding video; on failure of the retry remove the partial
output again and record a fatal error naming the source file; on success stat
the produced file (removing it and recording an error when the stat fails)
and write its size/mode into the destination node.  In dry-run mode, record
the estimated size and the configured file mode. -/
def runTranscodeOp (env : RunEnv) (op : TranscodeOp) : TranscodeOutcome :=
  let brStr := ffmpegBitrateStr env.maxBitrateKbps
  let dst := op.dest.filesystemPath
  if !env.dryRun then
    let args1 := ffmpegArgsKeepVideo op.source.filesystemPath dst brStr
    let r1 := env.exec args1
    if r1.2 then
      match env.stat dst with
      | some szmd => ⟨op.dest.withSizeMode szmd.1 szmd.2, [], [args1], none⟩
      | none => ⟨op.dest, [dst], [args1], some ("stat failed: " ++ dst)⟩
    else
      let args2 := ffmpegArgsDiscardVideo op.source.filesystemPath dst brStr
      let r2 := env.exec args2
      if r2.2 then
        match env.stat dst with
        | some szmd => ⟨op.dest.withSizeMode szmd.1 szmd.2, [dst], [args1, args2], none⟩
        | none => ⟨op.dest, [dst, dst], [args1, args2], some ("stat failed: " ++ dst)⟩
      else
        ⟨op.dest, [dst, dst], [args1, args2],
          some ("transcode " ++ op.source.filesystemPath ++ " failed: " ++ r2.1)⟩
  else
    ⟨op.dest.withSizeMode
        (env.dryRunTranscodeSizeEstimate op.source.fileSize op.source.fileBitrate
          (targetTranscodeBitrate env.maxBitrateKbps))
        env.fileCreateMode,
      [], [], none⟩

/-- Replace the node at the given tree path, used to reflect the pointer
write-back `op.dest.Mode = ...; op.dest.FileSize = ...` into the functional
destination tree. -/
def updateAtTreePath (n : MusicTreeNode) (path : List String) (newNode : MusicTreeNode) :
    MusicTreeNode :=
  match path with
  | [] => newNode
  | k :: rest =>
    match n.children with
    | none => n
    | some cs =>
      match lookupChild cs k with
      | none => n
      | some c => setChildren n (some (upsertChild cs k (updateAtTreePath c rest newNode)))
termination_by structural path

/-- Drain the transcode queue.  The Go scheduler runs a bounded worker pool in
which each queue entry is claimed by exactly one worker and each operation
writes to a distinct destination node, so the final tree is the same under
any interleaving; the claim/error protocol itself is modelled separately by
`schedStep`/`schedRun`.  Returns the updated tree and the number of
operations processed. -/
def runTranscodeQueue (env : RunEnv) (tree : MusicTreeNode) :
    List TranscodeOp → Except String (MusicTreeNode × Nat)
  | [] => .ok (tree, 0)
  | op :: rest =>
    let oc := runTranscodeOp env op
    match oc.err with
    | some e => .error e
    | none =>
      match runTranscodeQueue env (updateAtTreePath tree op.dest.treePath oc.dest) rest with
      | .error e => .error e
      | .ok tc => .ok (tc.1, tc.2 + 1)

/- ## The worker-pool claim/error protocol (msyncMain transcode scheduler) -/
/-- Shared state guarded by `transcodeQueueLock`: the claim index
(initially -1) and the recorded error. -/
structure SchedState where
  currentIdx : Int
  err : Option String
deriving DecidableEq

/-- Atomic critical sections executed by the workers: a claim attempt at the
top of the worker loop, or the recording of a fatal error. -/
inductive SchedEvent : Type where
  | claim (worker : Nat)
  | record (worker : Nat) (e : String)

/-- The locked section at the top of the worker loop:
`currentIdx++; if currentIdx >= len(queue) || err != nil { return }` —
the index advances, and an operation is claimed only when the new index is in
range and no error has been recorded. -/
def transcodeClaimStep (queueLen : Int) (s : SchedState) : SchedState × Option Int :=
  let idx := s.currentIdx + 1
  if decide (idx ≥ queueLen) || s.err.isSome then ({ currentIdx := idx, err := s.err }, none)
  else ({ currentIdx := idx, err := s.err }, some idx)

/-- One atomic step of the scheduler: error recording overwrites the shared
`err` variable unconditionally (`err = fmt.Errorf(...)`). -/
def schedStep (queueLen : Int) (s : SchedState) : SchedEvent → SchedState × Option Int
  | .claim _ => transcodeClaimStep queueLen s
  | .record _ e => ({ currentIdx := s.currentIdx, err := some e }, none)

/-- Run an interleaving (a sequence of atomic steps); returns the final
shared state and the list of claimed queue indices. -/
def schedRun (queueLen : Int) : List SchedEvent → SchedState → SchedState × List Int
  | [], s => (s, [])
  | ev :: rest, s =>
    let r1 := schedStep queueLen s ev
    let r2 := schedRun queueLen rest r1.1
    (r2.1, (r1.2.map (fun i => [i])).getD [] ++ r2.2)

/-- The error left in the shared variable by a sequence of recordings:
the last one recorded (each recording overwrites). -/
def lastRecordedErr (evs : List SchedEvent) (e0 : Option String) : Option String :=
  evs.foldl (fun acc ev => match ev with | .record _ e => some e | .claim _ => acc) e0

/- ## The full pipeline (msyncMain) -/
/-- Counters reported by a full run: per-pass removal counts, the sync
counter, the performed filesystem actions, the number of transcode operations
processed, and the final destination tree. -/
structure RunReport where
  remove1 : Nat
  remove2 : Nat
  remove3 : Nat
  filesSynced : Nat
  actions : List SyncAction
  transcodeCount : Nat
  remove4 : Nat
  finalTree : MusicTreeNode

def liftRemove (r : RemoveResult) : Except String (MusicTreeNode × Nat) :=
  match r.err with
  | some e => .error e
  | none => .ok (r.tree, r.count)

/-- The phase sequence of `msyncMain` after both trees are built: prune stale
entries, optionally prune non-music files, prune over-bitrate music files,
walk the source tree syncing into the destination tree and building the
transcode queue, drain the transcode queue, and finally prune empty
directories. -/
def msyncRun (env : RunEnv) (sourceTree destTree : MusicTreeNode) :
    Except String RunReport := do
  let r1 ← liftRemove
    (removeChildrenMatching env.dryRun env.trash (stalePred sourceTree) destTree)
  let r2 ←
    if env.removeOtherFilesFromDest then
      liftRemove (removeChildrenMatching env.dryRun env.trash nonMusicPred r1.1)
    else .ok (r1.1, 0)
  let r3 ← liftRemove
    (removeChildrenMatching env.dryRun env.trash (bitratePrunePred env.maxBitrateKbps) r2.1)
  let st ← walkTree (syncVisitNode env) sourceTree ⟨r3.1, [], 0, [], []⟩
  let r4 ← runTranscodeQueue env st.destTree st.transcodeQueue
  let r5 ← liftRemove (removeChildrenMatching env.dryRun env.trash emptyDirPred r4.1)
  .ok ⟨r1.2, r2.2, r3.2, st.filesSynced, st.actions, r4.2, r5.2, r5.1⟩

mutual

def treeAll (q : MusicTreeNode → Bool) : MusicTreeNode → Bool
  | .mk tp fp d f m bn bnn sz br md none =>
    q (.mk tp fp d f m bn bnn sz br md none)
  | .mk tp fp d f m bn bnn sz br md (some cs) =>
    q (.mk tp fp d f m bn bnn sz br md (some cs)) && treeAllList q cs
termination_by structural n => n

def treeAllList (q : MusicTreeNode → Bool) : List (String × MusicTreeNode) → Bool
  | [] => true
  | (_, c) :: rest => treeAll q c && treeAllList q rest
termination_by structural cs => cs

end

def treeAllChildren (q : MusicTreeNode → Bool) (n : MusicTreeNode) : Bool :=
  match n.children with
  | none => true
  | some cs => treeAllList q cs

mutual

/-- All strict descendants of a node (children, their children, ...). -/
def strictDescendantNodes : MusicTreeNode → List MusicTreeNode
  | .mk _ _ _ _ _ _ _ _ _ _ none => []
  | .mk _ _ _ _ _ _ _ _ _ _ (some cs) => descList cs
termination_by structural n => n

def descList : List (String × MusicTreeNode) → List MusicTreeNode
  | [] => []
  | (_, c) :: rest => (c :: strictDescendantNodes c) ++ descList rest
termination_by structural cs => cs

end

/- ## Concrete fixtures used by counterexamples and witnesses -/
def exFileA : MusicTreeNode := .mk ["a"] "/d/a" false true true "a.mp3" "a" 10 100 420 none

def exFileB : MusicTreeNode := .mk ["b"] "/d/b" false true true "b.mp3" "b" 10 100 420 none

def exRootOne : MusicTreeNode :=
  .mk [] "/d" true false false "d" "d" 0 0 493 (some [("a", exFileA)])

def exRootTwo : MusicTreeNode :=
  .mk [] "/d" true false false "d" "d" 0 0 493 (some [("a", exFileA), ("b", exFileB)])

/-- Innermost directory of the cascade example: empty before the pass. -/
def cascadeB : MusicTreeNode := .mk ["a", "b"] "/r/a/b" true false false "b" "b" 0 0 493 (some [])

/-- Middle directory of the cascade example: non-empty before the pass, it
becomes empty only because its single child is removed during the pass. -/
def cascadeA : MusicTreeNode :=
  .mk ["a"] "/r/a" true false false "a" "a" 0 0 493 (some [("b", cascadeB)])

def cascadeRoot : MusicTreeNode :=
  .mk [] "/r" true false false "r" "r" 0 0 493 (some [("a", cascadeA)])

def childrenList (n : MusicTreeNode) : List (String × MusicTreeNode) := n.children.getD []

/-- Shared dry-run environment fixture (ceiling 192 Kbps, file mode 0644,
roots /src and /dst). -/
def exEnvDry : RunEnv :=
  ⟨true, false, false, 192, 420, "/src", "/dst",
   fun _ => true, fun _ _ => true, fun _ _ => true, fun _ => none,
   fun _ => ("", true), fun _ => true, fun _ _ _ => 0⟩

def exSourceTrack : MusicTreeNode :=
  .mk ["album", "track"] "/src/album/track.mp3" false true true "track.mp3" "track"
    1234 100000 493 none

def exDestWithAlbum : MusicTreeNode :=
  .mk [] "/dst" true false false "dst" "dst" 0 0 493
    (some [("album", .mk ["album"] "/dst/album" true false false "album" "album"
      0 0 493 (some []))])

def exSyncState : SyncState := ⟨exDestWithAlbum, [], 0, [], []⟩

def exSyncedSrc : MusicTreeNode :=
  .mk [] "/src" true false false "src" "src" 0 0 493
    (some [("a", .mk ["a"] "/src/a.mp3" false true true "a.mp3" "a" 10 100000 420 none)])

def exSyncedDst : MusicTreeNode :=
  .mk [] "/dst" true false false "dst" "dst" 0 0 493
    (some [("a", .mk ["a"] "/dst/a.mp3" false true true "a.mp3" "a" 10 100000 420 none)])

def exEmptyDirSrc : MusicTreeNode :=
  .mk [] "/src" true false false "src" "src" 0 0 493
    (some [("d", .mk ["d"] "/src/d" true false false "d" "d" 0 0 493 (some []))])

def exEmptyDirDst : MusicTreeNode :=
  .mk [] "/dst" true false false "dst" "dst" 0 0 493
    (some [("d", .mk ["d"] "/dst/d" true false false "d" "d" 0 0 493 (some []))])

/-- Environment whose ffmpeg oracle always fails with output boom. -/
def exEnvFfmpegFail : RunEnv :=
  ⟨false, false, false, 192, 420, "/src", "/dst",
   fun _ => true, fun _ _ => true, fun _ _ => true, fun _ => none,
   fun _ => ("boom", false), fun _ => true, fun _ _ _ => 0⟩

def exTranscodeOp : TranscodeOp :=
  ⟨exSourceTrack,
   .mk ["album", "track"] "/dst/album/track.m4a" false true true "track.m4a" "track"
     0 191000 0 none⟩

@[simp] theorem treePath_mk (tp fp d f m bn bnn sz br md cs) :
    (MusicTreeNode.mk tp fp d f m bn bnn sz br md cs).treePath = tp := rfl

@[simp] theorem filesystemPath_mk (tp fp d f m bn bnn sz br md cs) :
    (MusicTreeNode.mk tp fp d f m bn bnn sz br md cs).filesystemPath = fp := rfl

@[simp] theorem isDirectory_mk (tp fp d f m bn bnn sz br md cs) :
    (MusicTreeNode.mk tp fp d f m bn bnn sz br md cs).isDirectory = d := rfl

@[simp] theorem isFile_mk (tp fp d f m bn bnn sz br md cs) :
    (MusicTreeNode.mk tp fp d f m bn bnn sz br md cs).isFile = f := rfl

@[simp] theorem isMusicFile_mk (tp fp d f m bn bnn sz br md cs) :
    (MusicTreeNode.mk tp fp d f m bn bnn sz br md cs).isMusicFile = m := rfl

@[simp] theorem fileSize_mk (tp fp d f m bn bnn sz br md cs) :
    (MusicTreeNode.mk tp fp d f m bn bnn sz br md cs).fileSize = sz := rfl

@[simp] theorem fileBitrate_mk (tp fp d f m bn bnn sz br md cs) :
    (MusicTreeNode.mk tp fp d f m bn bnn sz br md cs).fileBitrate = br := rfl

@[simp] theorem mode_mk (tp fp d f m bn bnn sz br md cs) :
    (MusicTreeNode.mk tp fp d f m bn bnn sz br md cs).mode = md := rfl

@[simp] theorem children_mk (tp fp d f m bn bnn sz br md cs) :
    (MusicTreeNode.mk tp fp d f m bn bnn sz br md cs).children = cs := rfl

@[simp] theorem setChildren_mk (tp fp d f m bn bnn sz br md cs cs2) :
    setChildren (MusicTreeNode.mk tp fp d f m bn bnn sz br md cs) cs2 =
      MusicTreeNode.mk tp fp d f m bn bnn sz br md cs2 := rfl

theorem setChildren_self (n : MusicTreeNode) : setChildren n n.children = n := by
  cases n; rfl

theorem setChildren_setChildren (n : MusicTreeNode) (a b) :
    setChildren (setChildren n a) b = setChildren n b := by
  cases n; rfl

theorem setChildren_children (n : MusicTreeNode) (a) : (setChildren n a).children = a := by
  cases n; rfl

theorem filesystemPath_setChildren (n : MusicTreeNode) (a) :
    (setChildren n a).filesystemPath = n.filesystemPath := by
  cases n; rfl

/- helper lemma drafts -/
mutual

theorem remove_dry_clean (t : String → Bool) (p : MusicTreeNode → Bool) (n : MusicTreeNode) :
    (removeChildrenMatching true t p n).err = none ∧
      (removeChildrenMatching true t p n).trashed = [] := by
  cases n with
  | mk tp fp d f m bn bnn sz br md cs =>
    cases cs with
    | none => simp [removeChildrenMatching]
    | some l =>
      have h := removeLoop_dry_clean t p l
      simp [removeChildrenMatching, h.1, h.2]
termination_by structural n

theorem removeLoop_dry_clean (t : String → Bool) (p : MusicTreeNode → Bool)
    (cs : List (String × MusicTreeNode)) :
    (removeChildrenLoop true t p cs).err = none ∧
      (removeChildrenLoop true t p cs).trashed = [] := by
  cases cs with
  | nil => simp [removeChildrenLoop]
  | cons kc rest =>
    have hc := remove_dry_clean t p kc.2
    have hrest := removeLoop_dry_clean t p rest
    cases kc with
    | mk k c =>
      cases hp : p (removeChildrenMatching true t p c).tree <;>
        simp [removeChildrenLoop, hc.1, hc.2, hp, hrest.1, hrest.2]
termination_by structural cs

end

theorem remove_tree_setChildren (d : Bool) (t : String → Bool) (p : MusicTreeNode → Bool)
    (n : MusicTreeNode) :
    (removeChildrenMatching d t p n).tree =
      setChildren n ((removeChildrenMatching d t p n).tree.children) := by
  cases n with
  | mk tp fp dd f m bn bnn sz br md cs =>
    cases cs with
    | none => simp [removeChildrenMatching]
    | some l => simp [removeChildrenMatching]

theorem removeLoop_dry_children (t : String → Bool) (p : MusicTreeNode → Bool)
    (cs : List (String × MusicTreeNode)) :
    (removeChildrenLoop true t p cs).children =
      cs.filterMap (fun kc =>
        if p ((removeChildrenMatching true t p kc.2).tree) then none
        else some (kc.1, (removeChildrenMatching true t p kc.2).tree)) := by
  induction cs with
  | nil => simp [removeChildrenLoop]
  | cons kc rest ih =>
    have hc := remove_dry_clean t p kc.2
    cases kc with
    | mk k c =>
      cases hp : p (removeChildrenMatching true t p c).tree <;>
        simp [removeChildrenLoop, hc.1, hp, ih]

theorem treeAll_eq (q : MusicTreeNode → Bool) (n : MusicTreeNode) :
    treeAll q n = (q n && treeAllChildren q n) := by
  cases n with
  | mk tp fp d f m bn bnn sz br md cs =>
    cases cs <;> simp [treeAll, treeAllChildren]

mutual

theorem remove_noop (d : Bool) (t : String → Bool) (p : MusicTreeNode → Bool)
    (n : MusicTreeNode) (h : treeAllChildren (fun m => !p m) n = true) :
    removeChildrenMatching d t p n = ⟨n, 0, [], none⟩ := by
  cases n with
  | mk tp fp dd f m bn bnn sz br md cs =>
    cases cs with
    | none => simp [removeChildrenMatching]
    | some l =>
      have hl := removeLoop_noop d t p l (by simpa [treeAllChildren] using h)
      simp [removeChildrenMatching, hl]
termination_by structural n

theorem removeLoop_noop (d : Bool) (t : String → Bool) (p : MusicTreeNode → Bool)
    (cs : List (String × MusicTreeNode)) (h : treeAllList (fun m => !p m) cs = true) :
    removeChildrenLoop d t p cs = ⟨cs, 0, [], none⟩ := by
  cases cs with
  | nil => simp [removeChildrenLoop]
  | cons kc rest =>
    cases kc with
    | mk k c =>
      rw [treeAllList] at h
      have h1 : treeAll (fun m => !p m) c = true := by
        cases hq : treeAll (fun m => !p m) c <;> simp [hq] at h ⊢
      have h2 : treeAllList (fun m => !p m) rest = true := by
        cases hq : treeAllList (fun m => !p m) rest <;> simp [hq] at h ⊢
      have hc := remove_noop d t p c (by
        have := treeAll_eq (fun m => !p m) c
        rw [this] at h1
        cases hq : treeAllChildren (fun m => !p m) c <;> simp [hq] at h1 ⊢)
      have hpc : p c = false := by
        have := treeAll_eq (fun m => !p m) c
        rw [this] at h1
        cases hq : p c <;> simp [hq] at h1 ⊢
      have hrest := removeLoop_noop d t p rest h2
      simp [removeChildrenLoop, hc, hpc, hrest]
termination_by structural cs

end

mutual

theorem treeAll_true (n : MusicTreeNode) : treeAll (fun _ => true) n = true := by
  cases n with
  | mk tp fp d f m bn bnn sz br md cs =>
    cases cs with
    | none => simp [treeAll]
    | some l => simp [treeAll, treeAllList_true l]
termination_by structural n

theorem treeAllList_true (cs : List (String × MusicTreeNode)) :
    treeAllList (fun _ => true) cs = true := by
  cases cs with
  | nil => simp [treeAllList]
  | cons kc rest => simp [treeAllList, treeAll_true kc.2, treeAllList_true rest]
termination_by structural cs

end

mutual

theorem remove_trashed_sub (d : Bool) (t : String → Bool) (p : MusicTreeNode → Bool)
    (n : MusicTreeNode) :
    ∀ path ∈ (removeChildrenMatching d t p n).trashed,
      ∃ m, m ∈ strictDescendantNodes n ∧ m.filesystemPath = path := by
  cases n with
  | mk tp fp dd f mm bn bnn sz br md cs =>
    cases cs with
    | none => simp [removeChildrenMatching]
    | some l =>
      have hl := removeLoop_trashed_sub d t p l
      simpa [removeChildrenMatching, strictDescendantNodes] using hl
termination_by structural n

theorem removeLoop_trashed_sub (d : Bool) (t : String → Bool) (p : MusicTreeNode → Bool)
    (cs : List (String × MusicTreeNode)) :
    ∀ path ∈ (removeChildrenLoop d t p cs).trashed,
      ∃ m, m ∈ descList cs ∧ m.filesystemPath = path := by
  cases cs with
  | nil => simp [removeChildrenLoop]
  | cons kc rest =>
    cases kc with
    | mk k c =>
      intro path hpath
      have hcsub := remove_trashed_sub d t p c
      have hrsub := removeLoop_trashed_sub d t p rest
      have hpathc : c.filesystemPath = (removeChildrenMatching d t p c).tree.filesystemPath := by
        rw [remove_tree_setChildren d t p c, filesystemPath_setChildren]
      have hfromc : path ∈ (removeChildrenMatching d t p c).trashed →
          ∃ m, m ∈ descList ((k, c) :: rest) ∧ m.filesystemPath = path := by
        intro h1
        obtain ⟨m, hm, hmp⟩ := hcsub path h1
        exact ⟨m, by simp [descList, hm], hmp⟩
      have hfromr : path ∈ (removeChildrenLoop d t p rest).trashed →
          ∃ m, m ∈ descList ((k, c) :: rest) ∧ m.filesystemPath = path := by
        intro h1
        obtain ⟨m, hm, hmp⟩ := hrsub path h1
        exact ⟨m, by simp [descList, hm], hmp⟩
      have hself : path = (removeChildrenMatching d t p c).tree.filesystemPath →
          ∃ m, m ∈ descList ((k, c) :: rest) ∧ m.filesystemPath = path := by
        intro h1
        refine ⟨c, by simp [descList], ?_⟩
        rw [hpathc, h1]
      simp only [removeChildrenLoop] at hpath
      repeat' split at hpath
      all_goals
        simp only [List.mem_append, List.mem_singleton, List.mem_cons,
          List.not_mem_nil, or_false, false_or] at hpath
      all_goals
        first
          | exact hfromc hpath
          | exact hfromr hpath
          | exact hself hpath
          | (rcases hpath with h | h
             <;> first
               | exact hfromc h
               | exact hfromr h
               | exact hself h
               | (rcases h with h | h
                  <;> first
                    | exact hfromc h
                    | exact hfromr h
                    | exact hself h))
termination_by structural cs

end

theorem removeChildren_of_some (d : Bool) (t : String → Bool) (p : MusicTreeNode → Bool)
    (n : MusicTreeNode) (cs : List (String × MusicTreeNode)) (h : n.children = some cs) :
    (removeChildrenMatching d t p n).tree.children =
      some ((removeChildrenLoop d t p cs).children) := by
  cases n with
  | mk tp fp dd f m bn bnn sz br md cs0 =>
    simp only [children_mk] at h
    subst h
    simp [removeChildrenMatching]

theorem removeLoop_insensitive_survives (d : Bool) (t : String → Bool)
    (p : MusicTreeNode → Bool) (hins : ∀ m csx, p (setChildren m csx) = p m)
    (k : String) (c : MusicTreeNode) (hpc : p c = false) :
    ∀ cs, (k, c) ∈ cs →
      ∃ c2, (k, c2) ∈ (removeChildrenLoop d t p cs).children ∧
        setChildren c2 c.children = c := by
  intro cs
  induction cs with
  | nil => intro h; simp at h
  | cons kc rest ih =>
    intro hmem
    obtain ⟨k0, c0⟩ := kc
    rcases List.mem_cons.mp hmem with heq | hmemr
    · obtain ⟨hk, hc⟩ := Prod.mk.injEq .. ▸ heq
      subst hk
      subst hc
      have hset := remove_tree_setChildren d t p c
      have hp0 : p (removeChildrenMatching d t p c).tree = false := by
        rw [hset, hins, hpc]
      refine ⟨(removeChildrenMatching d t p c).tree, ?_,
        by rw [hset, setChildren_setChildren, setChildren_self]⟩
      simp only [removeChildrenLoop]
      split
      · exact List.mem_cons_self _ _
      · simp [hp0]
    · have hset0 := remove_tree_setChildren d t p c0
      simp only [removeChildrenLoop]
      split
      · exact ⟨c, List.mem_cons_of_mem _ hmemr, setChildren_self c⟩
      · split
        · split
          · obtain ⟨c2, hc2, hc2e⟩ := ih hmemr
            exact ⟨c2, hc2, hc2e⟩
          · split
            · obtain ⟨c2, hc2, hc2e⟩ := ih hmemr
              exact ⟨c2, hc2, hc2e⟩
            · exact ⟨c, hmemr, setChildren_self c⟩
        · obtain ⟨c2, hc2, hc2e⟩ := ih hmemr
          exact ⟨c2, List.mem_cons_of_mem _ hc2, hc2e⟩

theorem syncVisit_skip (env : RunEnv) (st : SyncState) (n : MusicTreeNode)
    (h : st.destTree.hasNodeAtTreePath n.treePath = true) :
    syncVisitNode env n st = .ok st := by
  unfold syncVisitNode
  cases hA : (n.isFile && !n.isMusicFile) <;> simp [hA, h]

mutual

theorem walk_noop (env : RunEnv) (st : SyncState) (n : MusicTreeNode)
    (h : treeAll (fun m => st.destTree.hasNodeAtTreePath m.treePath) n = true) :
    walkTree (syncVisitNode env) n st = .ok st := by
  cases n with
  | mk tp fp d f m bn bnn sz br md cs =>
    cases cs with
    | none =>
      have hq : st.destTree.hasNodeAtTreePath
          (MusicTreeNode.mk tp fp d f m bn bnn sz br md none).treePath = true := by
        simpa [treeAll] using h
      simp only [walkTree]
      exact syncVisit_skip env st _ hq
    | some l =>
      have h2 : treeAllList (fun m2 => st.destTree.hasNodeAtTreePath m2.treePath) l = true := by
        rw [treeAll] at h
        cases hq : treeAllList (fun m2 => st.destTree.hasNodeAtTreePath m2.treePath) l <;>
          simp [hq] at h ⊢
      have hq : st.destTree.hasNodeAtTreePath
          (MusicTreeNode.mk tp fp d f m bn bnn sz br md (some l)).treePath = true := by
        rw [treeAll] at h
        cases hq2 : st.destTree.hasNodeAtTreePath tp <;> simp [hq2] at h ⊢
      have hlist := walkList_noop env st l h2
      simp only [walkTree, hlist]
      exact syncVisit_skip env st _ hq
termination_by structural n

theorem walkList_noop (env : RunEnv) (st : SyncState) (cs : List (String × MusicTreeNode))
    (h : treeAllList (fun m => st.destTree.hasNodeAtTreePath m.treePath) cs = true) :
    walkList (syncVisitNode env) cs st = .ok st := by
  cases cs with
  | nil => simp [walkList]
  | cons kc rest =>
    cases kc with
    | mk k c =>
      rw [treeAllList] at h
      have h1 : treeAll (fun m => st.destTree.hasNodeAtTreePath m.treePath) c = true := by
        cases hq : treeAll (fun m => st.destTree.hasNodeAtTreePath m.treePath) c <;>
          simp [hq] at h ⊢
      have h2 : treeAllList (fun m => st.destTree.hasNodeAtTreePath m.treePath) rest = true := by
        cases hq : treeAllList (fun m => st.destTree.hasNodeAtTreePath m.treePath) rest <;>
          simp [hq] at h ⊢
      have hc := walk_noop env st c h1
      have hrest := walkList_noop env st rest h2
      simp [walkList, hc, hrest]
termination_by structural cs

end

theorem claimStep_err (qlen : Int) (s : SchedState) :
    (transcodeClaimStep qlen s).1.err = s.err := by
  simp only [transcodeClaimStep]
  split <;> rfl

theorem schedRun_err (qlen : Int) (evs : List SchedEvent) :
    ∀ s, (schedRun qlen evs s).1.err = lastRecordedErr evs s.err := by
  induction evs with
  | nil => intro s; simp [schedRun, lastRecordedErr]
  | cons ev rest ih =>
    intro s
    cases ev with
    | claim w =>
      have h1 := claimStep_err qlen s
      simp only [schedRun, schedStep, lastRecordedErr, List.foldl]
      rw [ih]
      simp [lastRecordedErr, h1]
    | record w e =>
      simp only [schedRun, schedStep, lastRecordedErr, List.foldl]
      rw [ih]
      simp [lastRecordedErr]

theorem lastRecordedErr_some (x : String) :
    ∀ evs : List SchedEvent, lastRecordedErr evs (some x) ≠ none := by
  intro evs
  induction evs generalizing x with
  | nil => simp [lastRecordedErr]
  | cons ev rest ih =>
    cases ev with
    | claim w => simpa [lastRecordedErr, List.foldl] using ih x
    | record w e => simpa [lastRecordedErr, List.foldl] using ih e

theorem lastRecordedErr_ne_none (w : Nat) (e : String) :
    ∀ (evs : List SchedEvent) (e0 : Option String),
      SchedEvent.record w e ∈ evs → lastRecordedErr evs e0 ≠ none := by
  intro evs
  induction evs with
  | nil => intro e0 h; simp at h
  | cons ev rest ih =>
    intro e0 hmem
    rcases List.mem_cons.mp hmem with heq | hmemr
    · subst heq
      simpa [lastRecordedErr, List.foldl] using lastRecordedErr_some e rest
    · cases ev with
      | claim w2 => simpa [lastRecordedErr, List.foldl] using ih e0 hmemr
      | record w2 e2 => simpa [lastRecordedErr, List.foldl] using ih (some e2) hmemr

theorem treeAllChildren_of (q : MusicTreeNode → Bool) (n : MusicTreeNode)
    (h : treeAll q n = true) : treeAllChildren q n = true := by
  rw [treeAll_eq] at h
  cases hq : treeAllChildren q n <;> simp [hq] at h ⊢

/- ## Claims -/
/-- C7 `RemoveChildrenMatching` with the always-false predicate returns count
0, hands nothing to the deletion service, records no error, and returns the
tree unchanged (same nodes, same children maps, same fields), for every tree
and in both dry-run and normal mode. -/
theorem remove_always_false_noop_c7 (dryRun : Bool) (trash : String → Bool)
    (n : MusicTreeNode) :
    removeChildrenMatching dryRun trash (fun _ => false) n = ⟨n, 0, [], none⟩ :=
  remove_noop dryRun trash (fun _ => false) n (treeAllChildren_of _ _ (treeAll_true n))

/-- C4 With ceiling `c` Kbps the encode target is `(c-1)*1000` bps and the
prune threshold is the target plus 3000 bps, i.e. `(c+2)*1000` bps; the third
prune pass predicate holds exactly on music files whose recorded bitrate
strictly exceeds that threshold, and the sync walk enqueues a missing source
file for transcoding exactly when it is a music file whose bitrate strictly
exceeds the same threshold (`bitratePrunePred` and `needsTranscodePred` are
the predicates used by `msyncRun` and `syncVisitNode`). -/
theorem bitrate_thresholds_c4 (c : Int) (n : MusicTreeNode) :
    targetTranscodeBitrate c = (c - 1) * 1000 ∧
    maxBitrateForDestFiles c = (c + 2) * 1000 ∧
    (bitratePrunePred c n = true ↔ (n.isMusicFile = true ∧ n.fileBitrate > (c + 2) * 1000)) ∧
    (needsTranscodePred c n = true ↔
      (n.isFile = true ∧ n.isMusicFile = true ∧ n.fileBitrate > (c + 2) * 1000)) := by
  have ht : targetTranscodeBitrate c = (c - 1) * 1000 := by
    unfold targetTranscodeBitrate; ring
  have hm : maxBitrateForDestFiles c = (c + 2) * 1000 := by
    unfold maxBitrateForDestFiles targetTranscodeBitrate; ring
  refine ⟨ht, hm, ?_, ?_⟩
  · rw [bitratePrunePred, hm]
    simp [Bool.and_eq_true, decide_eq_true_iff]
  · rw [needsTranscodePred, hm]
    simp [Bool.and_eq_true, decide_eq_true_iff, and_assoc]

/-- C8 The name-normalization function lowercases its input and strips the
extension exactly when the lowercased name has a recognized music extension:
normalizing Track.MP3 and track.mp3 both yield track, normalizing notes.pdf
yields notes.pdf, and in general the result is the lowered name with the
extension cut when `isMusicFile` accepts the lowered name, and the lowered
name unchanged otherwise. -/
theorem normalize_name_c8 :
    normalizeFileNameForComparing "Track.MP3" = "track" ∧
    normalizeFileNameForComparing "track.mp3" = "track" ∧
    normalizeFileNameForComparing "notes.pdf" = "notes.pdf" ∧
    (∀ name : String, isMusicFile (goToLower name) = false →
      normalizeFileNameForComparing name = goToLower name) ∧
    (∀ name : String, isMusicFile (goToLower name) = true →
      normalizeFileNameForComparing name =
        goTake (goToLower name)
          ((goToLower name).length - (filepathExt (goToLower name)).length)) := by
  refine ⟨rfl, rfl, rfl, ?_, ?_⟩
  · intro name h
    simp [normalizeFileNameForComparing, h]
  · intro name h
    simp [normalizeFileNameForComparing, h]

theorem normalize_name_c8_witness :
    (isMusicFile (goToLower "Track.MP3") = true ∧
      normalizeFileNameForComparing "Track.MP3" =
        goTake (goToLower "Track.MP3")
          ((goToLower "Track.MP3").length - (filepathExt (goToLower "Track.MP3")).length)) ∧
    (isMusicFile (goToLower "notes.pdf") = false ∧
      normalizeFileNameForComparing "notes.pdf" = goToLower "notes.pdf") :=
  ⟨⟨rfl, normalize_name_c8.2.2.2.2 "Track.MP3" rfl⟩,
   ⟨rfl, normalize_name_c8.2.2.2.1 "notes.pdf" rfl⟩⟩

/-- C9 `RemoveChildrenMatching` never removes or trashes the node it is
invoked on: for every predicate (including one satisfied by the root), the
returned tree is the original root node with only its children changed, and
every path handed to the deletion service is the filesystem path of a strict
descendant.  In particular an empty destination root survives the
empty-directory pass. -/
theorem remove_root_survives_c9 (dryRun : Bool) (trash : String → Bool)
    (p : MusicTreeNode → Bool) (n : MusicTreeNode) :
    (removeChildrenMatching dryRun trash p n).tree =
      setChildren n ((removeChildrenMatching dryRun trash p n).tree.children) ∧
    ∀ path ∈ (removeChildrenMatching dryRun trash p n).trashed,
      ∃ m, m ∈ strictDescendantNodes n ∧ m.filesystemPath = path :=
  ⟨remove_tree_setChildren dryRun trash p n, remove_trashed_sub dryRun trash p n⟩

theorem remove_root_survives_c9_witness :
    ((removeChildrenMatching false (fun _ => true) (fun _ => true) exRootOne).tree =
      setChildren exRootOne
        ((removeChildrenMatching false (fun _ => true) (fun _ => true) exRootOne).tree.children)) ∧
    (∃ m, m ∈ strictDescendantNodes exRootOne ∧ m.filesystemPath = "/d/a") :=
  ⟨(remove_root_survives_c9 false (fun _ => true) (fun _ => true) exRootOne).1,
   (remove_root_survives_c9 false (fun _ => true) (fun _ => true) exRootOne).2 "/d/a"
     (by decide)⟩

/-- C10 When the deletion service fails for a matched child (here: the first
child in iteration order), `RemoveChildrenMatching` returns that error
immediately — the remaining siblings are left unprocessed — the failed child
has already been unlinked from the parent children map, and the returned
count does not include the failed child (only removals inside the child
subtree that had already been counted): the in-memory tree diverges from disk
for that node.  (The Go error message wraps the path in quotes and appends
the underlying error; the deletion oracle here is boolean, so the message
carries the path only.) -/
theorem deletion_error_state_c10 (trash : String → Bool) (p : MusicTreeNode → Bool)
    (n c : MusicTreeNode) (k : String) (rest : List (String × MusicTreeNode))
    (hch : n.children = some ((k, c) :: rest))
    (hrec : (removeChildrenMatching false trash p c).err = none)
    (hp : p (removeChildrenMatching false trash p c).tree = true)
    (ht : trash (removeChildrenMatching false trash p c).tree.filesystemPath = false) :
    removeChildrenMatching false trash p n =
      ⟨setChildren n (some rest), (removeChildrenMatching false trash p c).count,
        (removeChildrenMatching false trash p c).trashed,
        some ("failed to trash " ++
          (removeChildrenMatching false trash p c).tree.filesystemPath)⟩ := by
  cases n with
  | mk tp fp d f m bn bnn sz br md cs0 =>
    simp only [children_mk] at hch
    subst hch
    simp only [removeChildrenMatching, removeChildrenLoop]
    simp [hrec, hp, ht]

theorem deletion_error_state_c10_witness :
    removeChildrenMatching false (fun _ => false) (fun m => m.isFile) exRootTwo =
      ⟨setChildren exRootTwo (some [("b", exFileB)]), 0, [],
        some "failed to trash /d/a"⟩ := by
  have h := deletion_error_state_c10 (fun _ => false) (fun m => m.isFile) exRootTwo exFileA
    "a" [("b", exFileB)] rfl rfl rfl rfl
  exact h.trans (by rfl)

/-- C1 (amended) `RemoveChildrenMatching` visits children bottom-up and the
predicate is evaluated on the already-mutated child: in dry-run mode the
surviving children of every node are exactly the processed children on which
the predicate, applied to the processed (post-removal) child, is false; and a
child on which a children-insensitive predicate is false is never removed (in
any mode), which is why the stale/non-music/bitrate passes never remove a
directory that merely became empty.  (The original claim that no pass ever
removes a directory emptied during the same pass is refuted by the
counterexample: for the empty-directory predicate, the bottom-up order makes
exactly that cascade happen.) -/
theorem removeChildrenMatching_bottom_up_c1 :
    (∀ (trash : String → Bool) (p : MusicTreeNode → Bool) (n : MusicTreeNode),
      (removeChildrenMatching true trash p n).tree =
        setChildren n (n.children.map (fun cs => cs.filterMap (fun kc =>
          if p ((removeChildrenMatching true trash p kc.2).tree) then none
          else some (kc.1, (removeChildrenMatching true trash p kc.2).tree))))) ∧
    (∀ (dryRun : Bool) (trash : String → Bool) (p : MusicTreeNode → Bool)
        (n : MusicTreeNode) (cs : List (String × MusicTreeNode)) (k : String)
        (c : MusicTreeNode),
      (∀ m csx, p (setChildren m csx) = p m) →
      n.children = some cs → (k, c) ∈ cs → p c = false →
      ∃ c2, (k, c2) ∈ childrenList ((removeChildrenMatching dryRun trash p n).tree) ∧
        setChildren c2 c.children = c) := by
  constructor
  · intro t p n
    cases n with
    | mk tp fp d f m bn bnn sz br md cs =>
      cases cs with
      | none => simp [removeChildrenMatching]
      | some l => simp [removeChildrenMatching, removeLoop_dry_children]
  · intro dryRun t p n cs k c hins hch hmem hpc
    have hres := removeChildren_of_some dryRun t p n cs hch
    obtain ⟨c2, hc2, he⟩ := removeLoop_insensitive_survives dryRun t p hins k c hpc cs hmem
    refine ⟨c2, ?_, he⟩
    rw [childrenList, hres]
    simpa using hc2

theorem removeChildrenMatching_bottom_up_c1_witness :
    ∃ c2, ("a", c2) ∈ childrenList
        ((removeChildrenMatching false (fun _ => true) (fun m => m.isDirectory)
          exRootOne).tree) ∧
      setChildren c2 exFileA.children = exFileA :=
  removeChildrenMatching_bottom_up_c1.2 false (fun _ => true) (fun m => m.isDirectory)
    exRootOne [("a", exFileA)] "a" exFileA
    (fun m csx => by cases m; rfl) rfl (List.mem_singleton.mpr rfl) rfl

/-- C1 counterexample: with the empty-directory predicate of the final pass,
`cascadeA` does not satisfy the predicate before the pass (it has a child),
becomes empty only because its child `cascadeB` is removed during the pass,
and is nevertheless removed by the same pass: the run returns count 2 and a
root with no children. -/
theorem remove_same_pass_cascade_c1_counterexample :
    emptyDirPred cascadeA = false ∧
    removeChildrenMatching true (fun _ => true) emptyDirPred cascadeRoot =
      ⟨setChildren cascadeRoot (some []), 2, [], none⟩ :=
  ⟨rfl, rfl⟩

/-- C2 (amended) In the transcode scheduler, once an error is recorded no
claim step hands out an operation (the index still advances, the worker
exits); the error value left in the shared variable after any interleaving is
the LAST error recorded (each recording overwrites the previous one, as the
source comments acknowledge), not the first; and the run still fails whenever
any error was recorded. -/
theorem sched_claims_and_error_c2 (queueLen : Int) :
    (∀ (s : SchedState) (w : Nat), s.err ≠ none →
      schedStep queueLen s (SchedEvent.claim w) = (⟨s.currentIdx + 1, s.err⟩, none)) ∧
    (∀ (evs : List SchedEvent) (s0 : SchedState),
      (schedRun queueLen evs s0).1.err = lastRecordedErr evs s0.err) ∧
    (∀ (evs : List SchedEvent) (s0 : SchedState) (w : Nat) (e : String),
      SchedEvent.record w e ∈ evs → (schedRun queueLen evs s0).1.err ≠ none) := by
  refine ⟨?_, fun evs s0 => schedRun_err queueLen evs s0, ?_⟩
  · intro s w h
    have hs : s.err.isSome = true := Option.ne_none_iff_isSome.mp h
    simp [schedStep, transcodeClaimStep, hs]
  · intro evs s0 w e hmem
    rw [schedRun_err]
    exact lastRecordedErr_ne_none w e evs s0.err hmem

theorem sched_claims_and_error_c2_witness :
    schedStep 5 ⟨3, some "boom"⟩ (SchedEvent.claim 0) = (⟨4, some "boom"⟩, none) ∧
    (schedRun 5 [SchedEvent.record 0 "x"] ⟨-1, none⟩).1.err ≠ none :=
  ⟨(sched_claims_and_error_c2 5).1 ⟨3, some "boom"⟩ 0 (by decide),
   (sched_claims_and_error_c2 5).2.2 [SchedEvent.record 0 "x"] ⟨-1, none⟩ 0 "x"
     (List.mem_singleton.mpr rfl)⟩

/-- C2 counterexample: in the interleaving where worker 0 records e1 and then
worker 1 records e2, the error left for the run to return is e2 — the one
recorded last — and not the first-recorded e1 as the claim states. -/
theorem sched_last_error_c2_counterexample :
    (schedRun 5 [SchedEvent.record 0 "e1", SchedEvent.record 1 "e2"] ⟨-1, none⟩).1.err =
      some "e2" ∧ (some "e2" : Option String) ≠ some "e1" :=
  ⟨rfl, by decide⟩

/-- C3 (amended) In dry-run mode, the size/mode pair recorded for a source
music file handled by the copy/symlink branch of the sync walk (bitrate
within the ceiling plus tolerance) is the source size together with the
CONFIGURED FILE-CREATION MODE — not the source mode as the claim states. -/
theorem dry_run_copy_estimate_c3 (env : RunEnv) (n : MusicTreeNode) (destPath : String)
    (h : env.dryRun = true) :
    syncNewFileSizeMode env n destPath = .ok (n.fileSize, env.fileCreateMode) := by
  simp [syncNewFileSizeMode, h]

theorem dry_run_copy_estimate_c3_witness :
    syncNewFileSizeMode exEnvDry exSourceTrack "/dst/album/track.mp3" = .ok (1234, 420) :=
  dry_run_copy_estimate_c3 exEnvDry exSourceTrack "/dst/album/track.mp3" rfl

/-- C3 counterexample: a dry-run sync step for a 100 kbps source file of mode
0755 (493) under configured file mode 0644 (420) inserts a destination node
whose size is the source size 1234 but whose mode is 420, not the source mode
493. -/
theorem dry_run_copy_mode_c3_counterexample :
    (syncVisitNode exEnvDry exSourceTrack exSyncState).toOption.map
        (fun st => (st.destTree.nodeAtTreePath ["album", "track"]).map
          (fun m => (m.fileSize, m.mode))) = some (some (1234, 420)) ∧
    exSourceTrack.fileSize = 1234 ∧ exSourceTrack.mode = 493 ∧
    exEnvDry.fileCreateMode = 420 ∧ (420 : Nat) ≠ 493 :=
  ⟨rfl, rfl, rfl, rfl, by decide⟩

/-- C5 (amended) A full run on already-synchronized trees — every destination
node present in the source (pass-1 predicate false everywhere), every source
node present in the destination, no destination music file over the ceiling
plus tolerance, AND additionally: the destination contains no empty
directories, and non-music removal is disabled or the destination contains
only directories and music files — performs zero copy/symlink/mkdir actions,
enqueues zero transcodes, and all four prune passes remove zero nodes,
returning the destination tree unchanged.  (The extra hypotheses are forced
by the counterexample: the final pass removes pre-existing empty directories,
and pass 2 removes pre-existing non-music files, even on synchronized
trees.) -/
theorem idempotent_run_c5 (env : RunEnv) (sourceTree destTree : MusicTreeNode)
    (h1 : treeAll (fun m => !stalePred sourceTree m) destTree = true)
    (h2 : treeAll (fun m => destTree.hasNodeAtTreePath m.treePath) sourceTree = true)
    (h3 : treeAll (fun m => !bitratePrunePred env.maxBitrateKbps m) destTree = true)
    (h4 : treeAll (fun m => !emptyDirPred m) destTree = true)
    (h5 : env.removeOtherFilesFromDest = false ∨
          treeAll (fun m => !nonMusicPred m) destTree = true) :
    msyncRun env sourceTree destTree = .ok ⟨0, 0, 0, 0, [], 0, 0, destTree⟩ := by
  have e1 := remove_noop env.dryRun env.trash (stalePred sourceTree) destTree
    (treeAllChildren_of _ _ h1)
  have e3 := remove_noop env.dryRun env.trash (bitratePrunePred env.maxBitrateKbps) destTree
    (treeAllChildren_of _ _ h3)
  have e4 := remove_noop env.dryRun env.trash emptyDirPred destTree
    (treeAllChildren_of _ _ h4)
  have ewalk : walkTree (syncVisitNode env) sourceTree ⟨destTree, [], 0, [], []⟩ =
      .ok ⟨destTree, [], 0, [], []⟩ :=
    walk_noop env ⟨destTree, [], 0, [], []⟩ sourceTree h2
  rcases h5 with h5 | h5
  · simp [msyncRun, liftRemove, e1, e3, e4, ewalk, runTranscodeQueue, h5,
      bind, Except.bind]
  · have e2 := remove_noop env.dryRun env.trash nonMusicPred destTree
      (treeAllChildren_of _ _ h5)
    cases hflag : env.removeOtherFilesFromDest <;>
      simp [msyncRun, liftRemove, e1, e2, e3, e4, ewalk, runTranscodeQueue, hflag,
        bind, Except.bind]

theorem idempotent_run_c5_witness :
    msyncRun exEnvDry exSyncedSrc exSyncedDst = .ok ⟨0, 0, 0, 0, [], 0, 0, exSyncedDst⟩ :=
  idempotent_run_c5 exEnvDry exSyncedSrc exSyncedDst (by decide) (by decide) (by decide)
    (by decide) (Or.inl rfl)

/-- C5 counterexample: source and destination each hold the single empty
directory d — fully synchronized (all identities present both ways, no music
file over the ceiling) — yet the run is not prune-free: the final
empty-directory pass removes d from the destination (remove4 = 1), so a
synchronized run does not perform zero prunes. -/
theorem idempotent_run_c5_counterexample :
    treeAll (fun m => exEmptyDirSrc.hasNodeAtTreePath m.treePath) exEmptyDirDst = true ∧
    treeAll (fun m => exEmptyDirDst.hasNodeAtTreePath m.treePath) exEmptyDirSrc = true ∧
    treeAll (fun m => !bitratePrunePred 192 m) exEmptyDirDst = true ∧
    msyncRun exEnvDry exEmptyDirSrc exEmptyDirDst =
      .ok ⟨0, 0, 0, 0, [], 0, 1,
        .mk [] "/dst" true false false "dst" "dst" 0 0 493 (some [])⟩ :=
  ⟨rfl, rfl, rfl, rfl⟩

/-- C6 For a claimed transcode operation outside dry-run mode: when the first
ffmpeg invocation succeeds there is no retry and (when the stat of the
produced file succeeds) its size and mode are written into the destination
node; when the first invocation fails, the partial output is removed and
exactly one retry runs with the degraded argument list containing `-vn`
(discard non-audio content); when the retry also fails the partial output is
removed again and the recorded fatal error names the source file (with the
retry output appended); when the retry succeeds the produced size/mode are
written back. -/
theorem transcode_retry_writeback_c6 (env : RunEnv) (op : TranscodeOp)
    (hwet : env.dryRun = false) :
    ((env.exec (ffmpegArgsKeepVideo op.source.filesystemPath op.dest.filesystemPath
        (ffmpegBitrateStr env.maxBitrateKbps))).2 = true →
      (runTranscodeOp env op).invocations =
        [ffmpegArgsKeepVideo op.source.filesystemPath op.dest.filesystemPath
          (ffmpegBitrateStr env.maxBitrateKbps)] ∧
      ∀ sz md, env.stat op.dest.filesystemPath = some (sz, md) →
        (runTranscodeOp env op).dest = op.dest.withSizeMode sz md ∧
        (runTranscodeOp env op).err = none ∧
        (runTranscodeOp env op).removed = []) ∧
    ((env.exec (ffmpegArgsKeepVideo op.source.filesystemPath op.dest.filesystemPath
        (ffmpegBitrateStr env.maxBitrateKbps))).2 = false →
      (runTranscodeOp env op).invocations =
        [ffmpegArgsKeepVideo op.source.filesystemPath op.dest.filesystemPath
          (ffmpegBitrateStr env.maxBitrateKbps),
         ffmpegArgsDiscardVideo op.source.filesystemPath op.dest.filesystemPath
          (ffmpegBitrateStr env.maxBitrateKbps)] ∧
      "-vn" ∈ ffmpegArgsDiscardVideo op.source.filesystemPath op.dest.filesystemPath
        (ffmpegBitrateStr env.maxBitrateKbps) ∧
      ((env.exec (ffmpegArgsDiscardVideo op.source.filesystemPath op.dest.filesystemPath
          (ffmpegBitrateStr env.maxBitrateKbps))).2 = false →
        (runTranscodeOp env op).removed =
          [op.dest.filesystemPath, op.dest.filesystemPath] ∧
        (runTranscodeOp env op).err =
          some ("transcode " ++ op.source.filesystemPath ++ " failed: " ++
            (env.exec (ffmpegArgsDiscardVideo op.source.filesystemPath
              op.dest.filesystemPath (ffmpegBitrateStr env.maxBitrateKbps))).1) ∧
        (runTranscodeOp env op).dest = op.dest) ∧
      ((env.exec (ffmpegArgsDiscardVideo op.source.filesystemPath op.dest.filesystemPath
          (ffmpegBitrateStr env.maxBitrateKbps))).2 = true →
        ∀ sz md, env.stat op.dest.filesystemPath = some (sz, md) →
          (runTranscodeOp env op).dest = op.dest.withSizeMode sz md ∧
          (runTranscodeOp env op).err = none ∧
          (runTranscodeOp env op).removed = [op.dest.filesystemPath])) := by
  constructor
  · intro h1
    constructor
    · cases hstat : env.stat op.dest.filesystemPath with
      | none => simp [runTranscodeOp, hwet, h1, hstat]
      | some szmd => simp [runTranscodeOp, hwet, h1, hstat]
    · intro sz md hstat
      refine ⟨?_, ?_, ?_⟩ <;> simp [runTranscodeOp, hwet, h1, hstat]
  · intro h1
    refine ⟨?_, by simp [ffmpegArgsDiscardVideo], ?_, ?_⟩
    · cases h2 : (env.exec (ffmpegArgsDiscardVideo op.source.filesystemPath
          op.dest.filesystemPath (ffmpegBitrateStr env.maxBitrateKbps))).2
      · simp [runTranscodeOp, hwet, h1, h2]
      · cases hstat : env.stat op.dest.filesystemPath with
        | none => simp [runTranscodeOp, hwet, h1, h2, hstat]
        | some szmd => simp [runTranscodeOp, hwet, h1, h2, hstat]
    · intro h2
      refine ⟨?_, ?_, ?_⟩ <;> simp [runTranscodeOp, hwet, h1, h2]
    · intro h2 sz md hstat
      refine ⟨?_, ?_, ?_⟩ <;> simp [runTranscodeOp, hwet, h1, h2, hstat]

theorem transcode_retry_writeback_c6_witness :
    (runTranscodeOp exEnvFfmpegFail exTranscodeOp).invocations =
      [ffmpegArgsKeepVideo "/src/album/track.mp3" "/dst/album/track.m4a" "192k",
       ffmpegArgsDiscardVideo "/src/album/track.mp3" "/dst/album/track.m4a" "192k"] ∧
    "-vn" ∈ ffmpegArgsDiscardVideo "/src/album/track.mp3" "/dst/album/track.m4a" "192k" ∧
    (runTranscodeOp exEnvFfmpegFail exTranscodeOp).removed =
      ["/dst/album/track.m4a", "/dst/album/track.m4a"] ∧
    (runTranscodeOp exEnvFfmpegFail exTranscodeOp).err =
      some "transcode /src/album/track.mp3 failed: boom" := by
  have h := (transcode_retry_writeback_c6 exEnvFfmpegFail exTranscodeOp rfl).2 rfl
  exact ⟨h.1, h.2.1, (h.2.2.1 rfl).1, (h.2.2.1 rfl).2.1⟩
